import Mathlib

/-!
Verification of the Black-Litterman allocation engine (`model.py`).

The engine is a pure numeric pipeline over rational matrices; we embed it
shallowly with `Matrix (Fin _) (Fin _) ℚ`.  numpy's `dot` is matrix
multiplication, `tau * covariance` is scalar multiplication,
`np.diag(np.diag M)` is `Matrix.diagonal (fun k => M k k)`, and the numpy
`inv` of a square rational matrix is `det⁻¹ • adjugate` (which agrees with
Mathlib's `⁻¹` on every input).  A `reshape(1, -1)` of a column vector is a
transpose.  Exceptions raised by the Python code (ValueError from the
validator, KeyError from pandas `.loc` with a missing column label, the
ValueError of an impossible `np.reshape`, and numpy's LinAlgError on a
singular matrix) are embedded as `Option`/error codes, and the mutable
instance fields of the `BlackLitterman` object are an explicit `BLState`
threaded through `allocate`.
-/

namespace BLModel

open Matrix

/-- numpy's `inv` on a square rational matrix: `det⁻¹ • adjugate`.
Over `ℚ` this coincides with Mathlib's noncomputable `⁻¹` (see
`npInv_eq_inv`); the Python code only reaches it when the matrix is
invertible, singular inputs raising `LinAlgError` instead (modelled by the
determinant tests in `allocateBody`). -/
def npInv {K : ℕ} (M : Matrix (Fin K) (Fin K) ℚ) : Matrix (Fin K) (Fin K) ℚ :=
  (M.det)⁻¹ • M.adjugate

/-- `np.reshape(v, (1, -1))` applied to an N×1 column: the 1×N row with the
same data, i.e. the transpose. -/
def reshapeRow {N : ℕ} (v : Matrix (Fin N) (Fin 1) ℚ) : Matrix (Fin 1) (Fin N) ℚ :=
  vᵀ

/-- `np.reshape(investor_views, (len(investor_views), 1))`: the K×1 column of
the view list (`_pre_process_inputs`, model.py line 64). -/
def viewsVec (V : List ℚ) : Matrix (Fin V.length) (Fin 1) ℚ :=
  Matrix.of fun k _ => V.get k

/-- The exceptions `allocate` can raise, by site:
the five `ValueError`s of `_error_checks`, the pandas `KeyError` of
`_create_pick_matrix`, the `ValueError` of the impossible `np.reshape` in
`_calculate_idzorek_omega`, and numpy's `LinAlgError` at an `inv` call on a
singular matrix. -/
inductive BLError where
  | countMismatch
  | unknownOmegaMethod
  | missingConfidences
  | confidenceCountMismatch
  | negativeConfidence
  | keyError
  | reshapeError
  | linAlgError
  deriving DecidableEq, Repr

/-- The configuration (validation) errors: exactly those raised by
`_error_checks` before any numeric work. -/
def isConfigError : BLError → Bool
  | .countMismatch => true
  | .unknownOmegaMethod => true
  | .missingConfidences => true
  | .confidenceCountMismatch => true
  | .negativeConfidence => true
  | _ => false

/-- The four mutable output fields of a `BlackLitterman` instance
(`__init__`, model.py lines 7-12).  Vector-valued fields are stored by
content (the post-processing step only transposes and relabels, never
changing entries). -/
structure BLState (N : ℕ) where
  weights : Option (Fin N → ℚ)
  implied_equilibrium_returns : Option (Fin N → ℚ)
  posterior_expected_returns : Option (Fin N → ℚ)
  posterior_covariance : Option (Matrix (Fin N) (Fin N) ℚ)

/-- `_calculate_implied_equilibrium_returns` (model.py line 121):
`risk_aversion * covariance.dot(market_capitalised_weights)`. -/
def calculate_implied_equilibrium_returns {N : ℕ} (risk_aversion : ℚ)
    (covariance : Matrix (Fin N) (Fin N) ℚ) (w : Matrix (Fin N) (Fin 1) ℚ) :
    Matrix (Fin N) (Fin 1) ℚ :=
  risk_aversion • (covariance * w)

/-- `_create_pick_matrix` (model.py lines 123-141).  A K×N zero frame with
columns labelled by the asset names; for each view the `.loc` assignment
writes the dictionary's coefficients into the named columns.  pandas raises
`KeyError` (here `none`) as soon as some referenced asset name is not a
column label; otherwise entry (k, j) is the coefficient the k-th dictionary
gives to the j-th asset name, 0 when absent. -/
def create_pick_matrix {N : ℕ} (K : ℕ) (pick_list : List (List (String × ℚ)))
    (asset_names : Fin N → String) : Option (Matrix (Fin K) (Fin N) ℚ) :=
  if ∀ d ∈ pick_list, ∀ p ∈ d, ∃ j, asset_names j = p.1 then
    some (Matrix.of fun k j => (((pick_list.getD k.val []).lookup (asset_names j)).getD 0))
  else none

/-- `_calculate_idzorek_omega` (model.py lines 163-178).  The code reshapes
the confidence list to shape `(1, covariance.shape[0])` — length N, the
number of assets — raising ValueError (`none`) when the list has a
different length; the subsequent broadcast `alpha * P.dot(cov).dot(P.T)`
of a (1, N) row against a (K, K) matrix needs `N = K`, `N = 1` or `K = 1`.
When it goes through, entry (i, j) is `alpha_t * (P Σ Pᵀ)_{ij}` with
`alpha_t = (1 - c_t) / c_t` and `t` the broadcast column index. -/
def calculate_idzorek_omega {N K : ℕ} (covariance : Matrix (Fin N) (Fin N) ℚ)
    (view_confidences : List ℚ) (P : Matrix (Fin K) (Fin N) ℚ) :
    Option (Matrix (Fin K) (Fin K) ℚ) :=
  if view_confidences.length = N ∧ (N = K ∨ N = 1 ∨ K = 1) then
    some (Matrix.of fun i j =>
      (1 - view_confidences.getD (if N = 1 then 0 else j.val) 0) /
        view_confidences.getD (if N = 1 then 0 else j.val) 0 *
        (P * covariance * Pᵀ) i j)
  else none

/-- `_calculate_omega` (model.py lines 143-161): the prior-variance branch
takes `P.dot((τΣ).dot(Pᵀ))`, the other branch the Idzorek matrix; both are
then forced diagonal by `np.diag(np.diag(omega))`. -/
def calculate_omega {N K : ℕ} (covariance : Matrix (Fin N) (Fin N) ℚ) (tau : ℚ)
    (P : Matrix (Fin K) (Fin N) ℚ) (view_confidences : Option (List ℚ))
    (omega_method : String) : Option (Matrix (Fin K) (Fin K) ℚ) :=
  if omega_method = "prior_variance" then
    some (Matrix.diagonal fun k => (P * ((tau • covariance) * Pᵀ)) k k)
  else
    match view_confidences with
    | none => none
    | some cs =>
        (calculate_idzorek_omega covariance cs P).map
          (fun m => Matrix.diagonal fun k => m k k)

/-- `_calculate_posterior_expected_returns` (model.py lines 89-92):
`π + (τΣ).dot(Pᵀ).dot(inv(P.dot(τΣ).dot(Pᵀ) + Ω).dot(Q − P.dot(π)))`,
then `reshape(1, -1)`. -/
def calculate_posterior_expected_returns {N K : ℕ}
    (implied : Matrix (Fin N) (Fin 1) ℚ) (covariance : Matrix (Fin N) (Fin N) ℚ)
    (tau : ℚ) (P : Matrix (Fin K) (Fin N) ℚ) (omega : Matrix (Fin K) (Fin K) ℚ)
    (Q : Matrix (Fin K) (Fin 1) ℚ) : Matrix (Fin 1) (Fin N) ℚ :=
  reshapeRow (implied +
    (tau • covariance) * Pᵀ *
      (npInv (P * (tau • covariance) * Pᵀ + omega) * (Q - P * implied)))

/-- `_calculate_posterior_covariance` (model.py lines 106-108):
`Σ + τΣ − (τΣ).dot(Pᵀ).dot(inv(P.dot(τΣ).dot(Pᵀ) + Ω)).dot(P).dot(τΣ)`. -/
def calculate_posterior_covariance {N K : ℕ}
    (covariance : Matrix (Fin N) (Fin N) ℚ) (tau : ℚ)
    (P : Matrix (Fin K) (Fin N) ℚ) (omega : Matrix (Fin K) (Fin K) ℚ) :
    Matrix (Fin N) (Fin N) ℚ :=
  covariance + tau • covariance -
    (tau • covariance) * Pᵀ * npInv (P * (tau • covariance) * Pᵀ + omega) * P *
      (tau • covariance)

/-- `_calculate_max_sharpe_weights` (model.py lines 71-75):
`weights = inv(Σ_post).dot(π_postᵀ); weights /= sum(weights)` —
`sum` over an N×1 array totals the entries, and `/=` divides elementwise. -/
def calculate_max_sharpe_weights {N : ℕ}
    (posterior_covariance : Matrix (Fin N) (Fin N) ℚ)
    (posterior_expected_returns : Matrix (Fin 1) (Fin N) ℚ) :
    Matrix (Fin N) (Fin 1) ℚ :=
  let raw := npInv posterior_covariance * posterior_expected_returnsᵀ
  Matrix.of fun i j => raw i j / (∑ t, raw t 0)

/-- `_error_checks` (model.py lines 193-220): view/pick count, omega-method
string, and — only in user-confidence mode — presence, count and
non-negativity of the confidences, in source order, first failure wins. -/
def errorChecks (num_views num_picks : ℕ) (omega_method : String)
    (view_confidences : Option (List ℚ)) : Option BLError :=
  if num_views ≠ num_picks then some .countMismatch
  else if omega_method ≠ "prior_variance" ∧ omega_method ≠ "user_confidences" then
    some .unknownOmegaMethod
  else if omega_method = "user_confidences" then
    match view_confidences with
    | none => some .missingConfidences
    | some cs =>
        if num_views ≠ cs.length then some .confidenceCountMismatch
        else if ∃ c ∈ cs, c < 0 then some .negativeConfidence
        else none
  else none

/-- `_post_processing` (model.py lines 180-191): transposes the weight and
implied-return columns and wraps everything in labelled frames — pure
relabelling that never changes an entry, hence the identity on the stored
content. -/
def post_processing {N : ℕ} (st : BLState N) : BLState N :=
  st

/-- Exception propagation: run the continuation on a produced value, or
abort with the given failure result when the step raised. -/
def orElseErr {α β : Type} (o : Option α) (err : β) (f : α → β) : β :=
  match o with
  | none => err
  | some a => f a

/-- The body of `allocate` after validation (model.py lines 20-51), in
source order: store the implied equilibrium returns, build the pick matrix
(KeyError aborts here, leaving only that field updated), derive omega
(the impossible Idzorek reshape aborts here), invert — singular matrices
abort with LinAlgError — then store the posterior returns, the posterior
covariance and the normalised max-Sharpe weights, and post-process. -/
def allocateBody {N : ℕ} (st : BLState N) (covariance : Matrix (Fin N) (Fin N) ℚ)
    (w : Matrix (Fin N) (Fin 1) ℚ) (investor_views : List ℚ)
    (pick_list : List (List (String × ℚ))) (risk_aversion tau : ℚ)
    (omega_method : String) (view_confidences : Option (List ℚ))
    (asset_names : Fin N → String) : BLState N × Option BLError :=
  let implied := calculate_implied_equilibrium_returns risk_aversion covariance w
  let st1 : BLState N := { st with implied_equilibrium_returns := some (fun i => implied i 0) }
  orElseErr (create_pick_matrix investor_views.length pick_list asset_names)
    (st1, some .keyError) fun P =>
  orElseErr (calculate_omega covariance tau P view_confidences omega_method)
    (st1, some .reshapeError) fun omega =>
  if (P * (tau • covariance) * Pᵀ + omega).det = 0 then
    (st1, some .linAlgError)
  else
    let postR := calculate_posterior_expected_returns implied covariance tau P
      omega (viewsVec investor_views)
    let st2 : BLState N := { st1 with posterior_expected_returns := some (fun i => postR 0 i) }
    let postC := calculate_posterior_covariance covariance tau P omega
    let st3 : BLState N := { st2 with posterior_covariance := some postC }
    if postC.det = 0 then (st3, some .linAlgError)
    else
      let wts := calculate_max_sharpe_weights postC postR
      let st4 : BLState N := { st3 with weights := some (fun i => wts i 0) }
      (post_processing st4, none)

/-- `allocate` (model.py lines 14-51) with `omega=None` (the derivation
path): `_error_checks` runs first and a validation failure returns with the
instance state untouched; otherwise the numeric body runs. -/
def allocate {N : ℕ} (st : BLState N) (covariance : Matrix (Fin N) (Fin N) ℚ)
    (w : Matrix (Fin N) (Fin 1) ℚ) (investor_views : List ℚ)
    (pick_list : List (List (String × ℚ))) (risk_aversion tau : ℚ)
    (omega_method : String) (view_confidences : Option (List ℚ))
    (asset_names : Fin N → String) : BLState N × Option BLError :=
  match errorChecks investor_views.length pick_list.length omega_method view_confidences with
  | some e => (st, some e)
  | none =>
      allocateBody st covariance w investor_views pick_list risk_aversion tau
        omega_method view_confidences asset_names

/-- Positive semi-definiteness of a rational matrix: every quadratic form
value is non-negative. -/
def IsPSD {N : ℕ} (covariance : Matrix (Fin N) (Fin N) ℚ) : Prop :=
  ∀ x : Fin N → ℚ, 0 ≤ Matrix.dotProduct x (covariance.mulVec x)

/-- Constant rational matrix, used to build small concrete inputs. -/
def constMat (m n : ℕ) (q : ℚ) : Matrix (Fin m) (Fin n) ℚ :=
  Matrix.of fun _ _ => q

/-- The state of a freshly constructed `BlackLitterman` instance
(`__init__`, model.py lines 7-12): all four fields `None`. -/
def initState (N : ℕ) : BLState N :=
  ⟨none, none, none, none⟩

/-- A concrete two-asset universe used by witnesses. -/
def wNames : Fin 2 → String :=
  fun j => if j = 0 then "A" else "B"

/-- A concrete one-view pick list over `wNames` used by witnesses. -/
def wPicks : List (List (String × ℚ)) :=
  [[("B", 1), ("A", -1)]]

/-- Over `ℚ`, the executable `npInv` agrees with Mathlib's matrix inverse on
every square matrix. -/
theorem npInv_eq_inv {K : ℕ} (M : Matrix (Fin K) (Fin K) ℚ) : npInv M = M⁻¹ := by
  rw [npInv, Matrix.inv_def, Ring.inverse_eq_inv]

/-- A matrix product through an empty index type is the zero matrix. -/
theorem mul_finZero {m p : ℕ} (A : Matrix (Fin m) (Fin 0) ℚ)
    (B : Matrix (Fin 0) (Fin p) ℚ) : A * B = 0 := by
  ext i j
  simp [Matrix.mul_apply]

/-- C1: `_calculate_posterior_expected_returns` returns (as a row) exactly
π + (τΣ)Pᵗ [P(τΣ)Pᵗ + Ω]⁻¹ (Q − Pπ), whenever P(τΣ)Pᵗ + Ω is invertible. -/
theorem posterior_expected_returns_formula {N K : ℕ}
    (covariance : Matrix (Fin N) (Fin N) ℚ) (tau : ℚ)
    (P : Matrix (Fin K) (Fin N) ℚ) (omega : Matrix (Fin K) (Fin K) ℚ)
    (Q : Matrix (Fin K) (Fin 1) ℚ) (implied : Matrix (Fin N) (Fin 1) ℚ)
    (htau : 0 < tau) (hinv : IsUnit (P * (tau • covariance) * Pᵀ + omega).det) :
    (calculate_posterior_expected_returns implied covariance tau P omega Q)ᵀ =
      implied + (tau • covariance) * Pᵀ *
        ((P * (tau • covariance) * Pᵀ + omega)⁻¹ * (Q - P * implied)) := by
  rw [calculate_posterior_expected_returns, reshapeRow, Matrix.transpose_transpose,
    npInv_eq_inv]

/-- Concrete instance of `posterior_expected_returns_formula` with
N = K = 1, Σ = [[1]], τ = 1, P = [[1]], Ω = [[1]], Q = [[3]], π = [[1]]. -/
theorem posterior_expected_returns_formula_witness :
    (0 : ℚ) < 1 ∧
    IsUnit (constMat 1 1 1 * ((1 : ℚ) • constMat 1 1 1) * (constMat 1 1 1)ᵀ +
        constMat 1 1 1).det ∧
    (calculate_posterior_expected_returns (constMat 1 1 1) (constMat 1 1 1) 1
        (constMat 1 1 1) (constMat 1 1 1) (constMat 1 1 3))ᵀ =
      constMat 1 1 1 + ((1 : ℚ) • constMat 1 1 1) * (constMat 1 1 1)ᵀ *
        ((constMat 1 1 1 * ((1 : ℚ) • constMat 1 1 1) * (constMat 1 1 1)ᵀ +
          constMat 1 1 1)⁻¹ * (constMat 1 1 3 - constMat 1 1 1 * constMat 1 1 1)) := by
  have h1 : (0 : ℚ) < 1 := one_pos
  have h2 : IsUnit (constMat 1 1 1 * ((1 : ℚ) • constMat 1 1 1) * (constMat 1 1 1)ᵀ +
      constMat 1 1 1).det := by
    rw [Matrix.det_fin_one]
    refine isUnit_iff_ne_zero.mpr ?_
    norm_num [constMat, Matrix.mul_apply, Matrix.add_apply, Fin.sum_univ_one]
  exact ⟨h1, h2, posterior_expected_returns_formula _ _ _ _ _ _ h1 h2⟩

/-- C2: `_calculate_posterior_covariance` returns exactly
Σ + τΣ − (τΣ)Pᵗ [P(τΣ)Pᵗ + Ω]⁻¹ P(τΣ), whenever P(τΣ)Pᵗ + Ω is
invertible. -/
theorem posterior_covariance_formula {N K : ℕ}
    (covariance : Matrix (Fin N) (Fin N) ℚ) (tau : ℚ)
    (P : Matrix (Fin K) (Fin N) ℚ) (omega : Matrix (Fin K) (Fin K) ℚ)
    (htau : 0 < tau) (hinv : IsUnit (P * (tau • covariance) * Pᵀ + omega).det) :
    calculate_posterior_covariance covariance tau P omega =
      covariance + tau • covariance -
        (tau • covariance) * Pᵀ * (P * (tau • covariance) * Pᵀ + omega)⁻¹ * P *
          (tau • covariance) := by
  rw [calculate_posterior_covariance, npInv_eq_inv]

/-- Concrete instance of `posterior_covariance_formula` with N = K = 1,
Σ = [[1]], τ = 1, P = [[1]], Ω = [[1]]. -/
theorem posterior_covariance_formula_witness :
    (0 : ℚ) < 1 ∧
    IsUnit (constMat 1 1 1 * ((1 : ℚ) • constMat 1 1 1) * (constMat 1 1 1)ᵀ +
        constMat 1 1 1).det ∧
    calculate_posterior_covariance (constMat 1 1 1) 1 (constMat 1 1 1)
        (constMat 1 1 1) =
      constMat 1 1 1 + (1 : ℚ) • constMat 1 1 1 -
        ((1 : ℚ) • constMat 1 1 1) * (constMat 1 1 1)ᵀ *
          (constMat 1 1 1 * ((1 : ℚ) • constMat 1 1 1) * (constMat 1 1 1)ᵀ +
            constMat 1 1 1)⁻¹ * constMat 1 1 1 * ((1 : ℚ) • constMat 1 1 1) := by
  have h1 : (0 : ℚ) < 1 := one_pos
  have h2 : IsUnit (constMat 1 1 1 * ((1 : ℚ) • constMat 1 1 1) * (constMat 1 1 1)ᵀ +
      constMat 1 1 1).det := by
    rw [Matrix.det_fin_one]
    refine isUnit_iff_ne_zero.mpr ?_
    norm_num [constMat, Matrix.mul_apply, Matrix.add_apply, Fin.sum_univ_one]
  exact ⟨h1, h2, posterior_covariance_formula _ _ _ _ h1 h2⟩

/-- C5: `_calculate_max_sharpe_weights` returns Σ_post⁻¹ π_postᵗ divided
entrywise by its entry total, and consequently the weights sum to 1,
whenever Σ_post is invertible and the raw total is non-zero. -/
theorem max_sharpe_weights_formula {N : ℕ}
    (posterior_covariance : Matrix (Fin N) (Fin N) ℚ)
    (posterior_expected_returns : Matrix (Fin 1) (Fin N) ℚ)
    (hinv : IsUnit posterior_covariance.det)
    (hsum : (∑ t, (posterior_covariance⁻¹ * posterior_expected_returnsᵀ) t 0) ≠ 0) :
    calculate_max_sharpe_weights posterior_covariance posterior_expected_returns =
      Matrix.of (fun i j =>
        (posterior_covariance⁻¹ * posterior_expected_returnsᵀ) i j /
          (∑ t, (posterior_covariance⁻¹ * posterior_expected_returnsᵀ) t 0)) ∧
    (∑ i, calculate_max_sharpe_weights posterior_covariance
        posterior_expected_returns i 0) = 1 := by
  constructor
  · rw [calculate_max_sharpe_weights, npInv_eq_inv]
  · rw [calculate_max_sharpe_weights, npInv_eq_inv]
    simp only [Matrix.of_apply]
    rw [← Finset.sum_div]
    exact div_self hsum

/-- Concrete instance of `max_sharpe_weights_formula` with N = 1,
Σ_post = [[1]], π_post = [[2]]: the weight vector is [[1]] and sums to 1. -/
theorem max_sharpe_weights_formula_witness :
    IsUnit (constMat 1 1 1).det ∧
    (∑ t, ((constMat 1 1 1)⁻¹ * (constMat 1 1 2)ᵀ) t 0) ≠ 0 ∧
    (calculate_max_sharpe_weights (constMat 1 1 1) (constMat 1 1 2) =
      Matrix.of (fun i j => ((constMat 1 1 1)⁻¹ * (constMat 1 1 2)ᵀ) i j /
          (∑ t, ((constMat 1 1 1)⁻¹ * (constMat 1 1 2)ᵀ) t 0)) ∧
    (∑ i, calculate_max_sharpe_weights (constMat 1 1 1) (constMat 1 1 2) i 0) = 1) := by
  have hone : constMat 1 1 1 = (1 : Matrix (Fin 1) (Fin 1) ℚ) := by
    ext i j
    fin_cases i; fin_cases j; rfl
  have h1 : IsUnit (constMat 1 1 1).det := by
    rw [hone, Matrix.det_one]
    exact isUnit_one
  have h2 : (∑ t, ((constMat 1 1 1)⁻¹ * (constMat 1 1 2)ᵀ) t 0) ≠ 0 := by
    rw [hone, inv_one, Matrix.one_mul]
    norm_num [constMat, Fin.sum_univ_one, Matrix.transpose_apply]
  exact ⟨h1, h2, max_sharpe_weights_formula _ _ h1 h2⟩

/-- C8: in prior-variance mode the derived omega is `diag(P (τΣ) Pᵗ)`, a
diagonal matrix with non-negative diagonal whenever τ ≥ 0 and Σ is
positive semi-definite. -/
theorem prior_variance_omega_diagonal {N K : ℕ}
    (covariance : Matrix (Fin N) (Fin N) ℚ) (tau : ℚ)
    (P : Matrix (Fin K) (Fin N) ℚ) (view_confidences : Option (List ℚ))
    (htau : 0 ≤ tau) (hpsd : IsPSD covariance) :
    ∃ Ω, calculate_omega covariance tau P view_confidences "prior_variance" = some Ω ∧
      Ω = Matrix.diagonal (fun k => (P * ((tau • covariance) * Pᵀ)) k k) ∧
      (∀ i j, i ≠ j → Ω i j = 0) ∧
      (∀ k, 0 ≤ Ω k k) := by
  refine ⟨Matrix.diagonal (fun k => (P * ((tau • covariance) * Pᵀ)) k k),
    by simp [calculate_omega], rfl, ?_, ?_⟩
  · intro i j hij
    exact Matrix.diagonal_apply_ne _ hij
  · intro k
    rw [Matrix.diagonal_apply_eq]
    have hq : (P * ((tau • covariance) * Pᵀ)) k k =
        tau * Matrix.dotProduct (fun a => P k a)
          (covariance.mulVec (fun a => P k a)) := by
      calc (P * ((tau • covariance) * Pᵀ)) k k
          = ∑ a, P k a * (tau * ∑ b, covariance a b * P k b) := by
            simp [Matrix.mul_apply, Matrix.smul_apply, Matrix.transpose_apply,
              smul_eq_mul, Finset.mul_sum]
        _ = tau * ∑ a, P k a * ∑ b, covariance a b * P k b := by
            rw [Finset.mul_sum]
            refine Finset.sum_congr rfl fun a _ => ?_
            ring
        _ = tau * Matrix.dotProduct (fun a => P k a)
              (covariance.mulVec (fun a => P k a)) := by
            simp [Matrix.dotProduct, Matrix.mulVec]
    rw [hq]
    exact mul_nonneg htau (hpsd _)

/-- Concrete instance of `prior_variance_omega_diagonal` with N = K = 1,
τ = 1, Σ = [[1]], P = [[1]]. -/
theorem prior_variance_omega_diagonal_witness :
    (0 : ℚ) ≤ 1 ∧ IsPSD (constMat 1 1 1) ∧
    (∃ Ω, calculate_omega (constMat 1 1 1) 1 (constMat 1 1 1) none
        "prior_variance" = some Ω ∧
      Ω = Matrix.diagonal
        (fun k => (constMat 1 1 1 * (((1 : ℚ) • constMat 1 1 1) *
          (constMat 1 1 1)ᵀ)) k k) ∧
      (∀ i j, i ≠ j → Ω i j = 0) ∧
      (∀ k, 0 ≤ Ω k k)) := by
  have h1 : (0 : ℚ) ≤ 1 := zero_le_one
  have h2 : IsPSD (constMat 1 1 1) := by
    intro x
    simp only [constMat, Matrix.dotProduct, Matrix.mulVec, Fin.sum_univ_one,
      Matrix.of_apply]
    have : x 0 * (1 * x 0) = x 0 * x 0 := by ring
    rw [this]
    exact mul_self_nonneg _
  exact ⟨h1, h2, prior_variance_omega_diagonal _ _ _ _ h1 h2⟩

/-- C3 (code bug): with K = 1 view over N = 2 assets and the single
confidence 0.5, `_error_checks` passes (the confidence count equals the
view count) yet `_calculate_idzorek_omega` fails: it reshapes the
confidence list to length `covariance.shape[0]` = N = 2, which is
impossible for a 1-element list, so user-confidence omega derivation
raises instead of producing the diagonal Idzorek matrix. -/
theorem idzorek_reshape_failure :
    errorChecks 1 1 "user_confidences" (some [(1 : ℚ)/2]) = none ∧
    calculate_idzorek_omega (constMat 2 2 1) [(1 : ℚ)/2] (constMat 1 2 1) = none ∧
    calculate_omega (constMat 2 2 1) (5/100) (constMat 1 2 1)
      (some [(1 : ℚ)/2]) "user_confidences" = none := by
  refine ⟨?_, ?_, ?_⟩
  · simp [errorChecks]
  · rw [calculate_idzorek_omega, if_neg]
    simp
  · simp [calculate_omega, calculate_idzorek_omega]

/-- C4 counterexample: the validator accepts the underscored strings
`prior_variance` and `user_confidences` and rejects the spec's hyphenated
spellings `prior-variance` and `user-confidence`, so acceptance is not
"exactly the two strings named by the spec". -/
theorem omega_method_spec_strings_rejected :
    errorChecks 0 0 "prior-variance" none = some BLError.unknownOmegaMethod ∧
    errorChecks 0 0 "user-confidence" none = some BLError.unknownOmegaMethod ∧
    errorChecks 0 0 "prior_variance" none = none := by
  refine ⟨?_, ?_, ?_⟩ <;> simp [errorChecks]

/-- In an association list with distinct keys, looking up the key of a
member pair returns its value. -/
theorem lookup_of_mem {l : List (String × ℚ)} (hnd : (l.map Prod.fst).Nodup)
    {p : String × ℚ} (hp : p ∈ l) : l.lookup p.1 = some p.2 := by
  induction l with
  | nil => cases hp
  | cons q t ih =>
      rcases List.mem_cons.mp hp with h | h
      · subst h
        simp [List.lookup]
      · have hne : p.1 ≠ q.1 := by
          intro he
          have : q.1 ∈ t.map Prod.fst := he ▸ List.mem_map_of_mem Prod.fst h
          exact (List.nodup_cons.mp hnd).1 this
        have : (p.1 == q.1) = false := beq_false_of_ne hne
        simp [List.lookup, this]
        exact ih (List.nodup_cons.mp hnd).2 h

/-- Looking up a key held by no pair of an association list returns
nothing. -/
theorem lookup_of_not_mem {l : List (String × ℚ)} {a : String}
    (h : ∀ p ∈ l, p.1 ≠ a) : l.lookup a = none := by
  induction l with
  | nil => rfl
  | cons q t ih =>
      obtain ⟨k, b⟩ := q
      have hb : (a == k) = false :=
        beq_false_of_ne fun he => (h (k, b) (List.mem_cons_self _ t)) he.symm
      simp only [List.lookup, hb, cond_false]
      exact ih fun p hp => h p (List.mem_cons_of_mem _ hp)

/-- C7: when every asset referenced by the pick list belongs to the
universe, `_create_pick_matrix` succeeds and the matrix carries each view's
coefficient at the referenced asset's column and zero everywhere else in
that row; when some referenced asset is absent, construction fails with the
pandas lookup error. -/
theorem pick_matrix_construction {N : ℕ} (K : ℕ)
    (pick_list : List (List (String × ℚ))) (asset_names : Fin N → String)
    (hnd : ∀ d ∈ pick_list, (d.map Prod.fst).Nodup) :
    ((∀ d ∈ pick_list, ∀ p ∈ d, ∃ j, asset_names j = p.1) →
      ∃ P, create_pick_matrix K pick_list asset_names = some P ∧
        (∀ k : Fin K, ∀ p ∈ pick_list.getD k.val [], ∀ j,
          asset_names j = p.1 → P k j = p.2) ∧
        (∀ (k : Fin K) (j : Fin N),
          (∀ p ∈ pick_list.getD k.val [], p.1 ≠ asset_names j) → P k j = 0)) ∧
    ((∃ d ∈ pick_list, ∃ p ∈ d, ∀ j, asset_names j ≠ p.1) →
      create_pick_matrix K pick_list asset_names = none) := by
  constructor
  · intro hall
    refine ⟨_, by rw [create_pick_matrix, if_pos hall], ?_, ?_⟩
    · intro k p hp j hj
      simp only [Matrix.of_apply]
      by_cases hk : k.val < pick_list.length
      · have hmem : pick_list.getD k.val [] ∈ pick_list := by
          rw [List.getD_eq_get? , List.get?_eq_get hk]
          exact List.get_mem _ _ _
        rw [hj, lookup_of_mem (hnd _ hmem) hp]
        rfl
      · rw [List.getD_eq_default _ _ (le_of_not_lt hk)] at hp
        cases hp
    · intro k j hz
      simp only [Matrix.of_apply]
      rw [lookup_of_not_mem hz]
      rfl
  · rintro ⟨d, hd, p, hp, habs⟩
    rw [create_pick_matrix, if_neg]
    intro hforall
    obtain ⟨j, hj⟩ := hforall d hd p hp
    exact habs j hj

/-- Concrete instance of `pick_matrix_construction`: the relative view
`B − A` over the universe `["A", "B"]`. -/
theorem pick_matrix_construction_witness :
    (∀ d ∈ wPicks, (d.map Prod.fst).Nodup) ∧
    (∀ d ∈ wPicks, ∀ p ∈ d, ∃ j, wNames j = p.1) ∧
    (∃ P, create_pick_matrix 1 wPicks wNames = some P ∧
      (∀ k : Fin 1, ∀ p ∈ wPicks.getD k.val [], ∀ j,
        wNames j = p.1 → P k j = p.2) ∧
      (∀ (k : Fin 1) (j : Fin 2),
        (∀ p ∈ wPicks.getD k.val [], p.1 ≠ wNames j) → P k j = 0)) := by
  have h1 : ∀ d ∈ wPicks, (d.map Prod.fst).Nodup := by decide
  have h2 : ∀ d ∈ wPicks, ∀ p ∈ d, ∃ j, wNames j = p.1 := by decide
  exact ⟨h1, h2, (pick_matrix_construction 1 wPicks wNames h1).1 h2⟩

/-- Aborting step: the failure result is returned. -/
theorem orElseErr_none {α β : Type} (err : β) (f : α → β) :
    orElseErr none err f = err :=
  rfl

/-- Successful step: the continuation receives the value. -/
theorem orElseErr_some {α β : Type} (a : α) (err : β) (f : α → β) :
    orElseErr (some a) err f = f a :=
  rfl

/-- A validation failure returns immediately with the instance state
untouched. -/
theorem allocate_checks_fail {N : ℕ} (st : BLState N) (cov) (w)
    (V : List ℚ) (L : List (List (String × ℚ))) (δ τ : ℚ) (m : String)
    (conf : Option (List ℚ)) (names : Fin N → String) (e : BLError)
    (h : errorChecks V.length L.length m conf = some e) :
    allocate st cov w V L δ τ m conf names = (st, some e) := by
  unfold allocate
  rw [h]

/-- When validation passes, `allocate` runs the numeric body. -/
theorem allocate_checks_pass {N : ℕ} (st : BLState N) (cov) (w)
    (V : List ℚ) (L : List (List (String × ℚ))) (δ τ : ℚ) (m : String)
    (conf : Option (List ℚ)) (names : Fin N → String)
    (h : errorChecks V.length L.length m conf = none) :
    allocate st cov w V L δ τ m conf names =
      allocateBody st cov w V L δ τ m conf names := by
  unfold allocate
  rw [h]

/-- A pick-matrix lookup failure aborts the body right after the implied
equilibrium returns were stored. -/
theorem allocateBody_pick_fail {N : ℕ} (st : BLState N) (cov) (w)
    (V : List ℚ) (L : List (List (String × ℚ))) (δ τ : ℚ) (m : String)
    (conf : Option (List ℚ)) (names : Fin N → String)
    (h : create_pick_matrix V.length L names = none) :
    allocateBody st cov w V L δ τ m conf names =
      ({ st with implied_equilibrium_returns := some (fun i => calculate_implied_equilibrium_returns δ cov w i 0) },
        some BLError.keyError) := by
  unfold allocateBody
  rw [h, orElseErr_none]

/-- After a successful pick-matrix and omega derivation with an invertible
view-space matrix, the body stores the posterior returns and posterior
covariance (whatever happens afterwards at the weight inversion). -/
theorem allocateBody_posteriors {N : ℕ} (st : BLState N) (cov) (w)
    (V : List ℚ) (L : List (List (String × ℚ))) (δ τ : ℚ) (m : String)
    (conf : Option (List ℚ)) (names : Fin N → String)
    (P : Matrix (Fin V.length) (Fin N) ℚ)
    (Ω : Matrix (Fin V.length) (Fin V.length) ℚ)
    (hP : create_pick_matrix V.length L names = some P)
    (hΩ : calculate_omega cov τ P conf m = some Ω)
    (hdet : ¬(P * (τ • cov) * Pᵀ + Ω).det = 0) :
    ((allocateBody st cov w V L δ τ m conf names).1.posterior_expected_returns =
      some (fun i => calculate_posterior_expected_returns
        (calculate_implied_equilibrium_returns δ cov w) cov τ P Ω
        (viewsVec V) 0 i)) ∧
    ((allocateBody st cov w V L δ τ m conf names).1.posterior_covariance =
      some (calculate_posterior_covariance cov τ P Ω)) := by
  unfold allocateBody
  simp only [hP, hΩ, orElseErr_some]
  rw [if_neg hdet]
  dsimp only [post_processing]
  constructor
  · split
    · rfl
    · rfl
  · split
    · rfl
    · rfl

/-- Any error the post-validation body reports is a lookup, reshape or
linear-algebra error, never a configuration error. -/
theorem allocateBody_error_kind {N : ℕ} (st : BLState N) (cov) (w)
    (V : List ℚ) (L : List (List (String × ℚ))) (δ τ : ℚ) (m : String)
    (conf : Option (List ℚ)) (names : Fin N → String) (e : BLError)
    (h : (allocateBody st cov w V L δ τ m conf names).2 = some e) :
    isConfigError e = false := by
  unfold allocateBody at h
  rcases hP : create_pick_matrix V.length L names with _ | P
  · simp only [hP, orElseErr_none] at h
    injection h with h
    subst h
    rfl
  · simp only [hP, orElseErr_some] at h
    rcases hΩ : calculate_omega cov τ P conf m with _ | Ω
    · simp only [hΩ, orElseErr_none] at h
      injection h with h
      subst h
      rfl
    · simp only [hΩ, orElseErr_some] at h
      dsimp only [post_processing] at h
      split_ifs at h
      all_goals (injection h with h; subst h; rfl)

/-- `_error_checks` raises a ValueError exactly for the conditions checked
in its source. -/
theorem errorChecks_spec (nv np : ℕ) (m : String) (conf : Option (List ℚ)) :
    (∃ e, errorChecks nv np m conf = some e) ↔
      (nv ≠ np ∨ (m ≠ "prior_variance" ∧ m ≠ "user_confidences") ∨
        (m = "user_confidences" ∧ (conf = none ∨
          ∃ cs, conf = some cs ∧ (nv ≠ cs.length ∨ ∃ c ∈ cs, c < 0)))) := by
  unfold errorChecks
  by_cases h1 : nv ≠ np
  · simp [h1]
  · rw [if_neg h1]
    by_cases h2 : m ≠ "prior_variance" ∧ m ≠ "user_confidences"
    · simp [h1, h2]
    · rw [if_neg h2]
      by_cases h3 : m = "user_confidences"
      · rw [if_pos h3]
        rcases conf with _ | cs
        · simp [h1, h2, h3]
        · by_cases h4 : nv ≠ cs.length
          · simp [h1, h2, h3, h4]
          · by_cases h5 : ∃ c ∈ cs, c < 0
            · simp [h1, h2, h3, h4, h5]
            · simp [h1, h2, h3, h4, h5]
      · rw [if_neg h3]
        have hpv : m = "prior_variance" := by
          rcases not_and_or.mp h2 with h4 | h4
          · exact not_not.mp h4
          · exact absurd (not_not.mp h4) h3
        simp [h1, h3, hpv]

/-- Every error raised by `_error_checks` is a configuration error. -/
theorem errorChecks_config {nv np : ℕ} {m : String} {conf : Option (List ℚ)}
    {e : BLError} (h : errorChecks nv np m conf = some e) :
    isConfigError e = true := by
  rcases conf with _ | cs
  · simp only [errorChecks] at h
    split_ifs at h <;> (injection h with h; subst h; rfl)
  · simp only [errorChecks] at h
    split_ifs at h <;> (injection h with h; subst h; rfl)

/-- C9: `allocate` rejects with a configuration error — leaving every
output field untouched — exactly when the view count differs from the
pick-list count, the omega method is unrecognized, or in user-confidence
mode the confidences are missing, miscounted, or somewhere negative; and a
confidence of exactly zero passes validation. -/
theorem allocate_config_error_spec {N : ℕ} (st : BLState N) (cov) (w)
    (V : List ℚ) (L : List (List (String × ℚ))) (δ τ : ℚ) (m : String)
    (conf : Option (List ℚ)) (names : Fin N → String) :
    ((∃ e, isConfigError e = true ∧
        allocate st cov w V L δ τ m conf names = (st, some e)) ↔
      (V.length ≠ L.length ∨ (m ≠ "prior_variance" ∧ m ≠ "user_confidences") ∨
        (m = "user_confidences" ∧ (conf = none ∨
          ∃ cs, conf = some cs ∧ (V.length ≠ cs.length ∨ ∃ c ∈ cs, c < 0))))) ∧
    (∀ cs, conf = some cs → (∀ c ∈ cs, 0 ≤ c) → m = "user_confidences" →
      V.length = L.length → V.length = cs.length →
      errorChecks V.length L.length m conf = none) := by
  constructor
  · constructor
    · rintro ⟨e, he, hal⟩
      cases hec : errorChecks V.length L.length m conf with
      | none =>
          rw [allocate_checks_pass st cov w V L δ τ m conf names hec] at hal
          have h2 : (allocateBody st cov w V L δ τ m conf names).2 = some e := by
            rw [hal]
          rw [allocateBody_error_kind st cov w V L δ τ m conf names e h2] at he
          cases he
      | some e' =>
          exact (errorChecks_spec V.length L.length m conf).mp ⟨e', hec⟩
    · intro hrhs
      obtain ⟨e, hec⟩ := (errorChecks_spec V.length L.length m conf).mpr hrhs
      exact ⟨e, errorChecks_config hec,
        allocate_checks_fail st cov w V L δ τ m conf names e hec⟩
  · intro cs hcs hnn hm hVL hVcs
    subst hcs
    subst hm
    have hne : ¬∃ c ∈ cs, c < 0 := by
      rintro ⟨c, hc, hlt⟩
      exact absurd (hnn c hc) (not_le.mpr hlt)
    have hv1 : ¬V.length ≠ L.length := by omega
    have hv2 : ¬V.length ≠ cs.length := by omega
    simp [errorChecks, hv1, hv2, hne]

/-- Concrete instance of `allocate_config_error_spec`: one view with
confidence exactly zero passes validation in user-confidence mode. -/
theorem allocate_config_error_spec_witness :
    ((some [(0 : ℚ)] : Option (List ℚ)) = some [(0 : ℚ)]) ∧
    (∀ c ∈ [(0 : ℚ)], 0 ≤ c) ∧
    errorChecks [(1 : ℚ)].length [[("A", (1 : ℚ))]].length "user_confidences"
      (some [(0 : ℚ)]) = none := by
  have h0 : ∀ c ∈ [(0 : ℚ)], 0 ≤ c := by
    intro c hc
    simp only [List.mem_singleton] at hc
    simp [hc]
  exact ⟨rfl, h0,
    (allocate_config_error_spec (initState 1) (constMat 1 1 1) (constMat 1 1 1)
      [(1 : ℚ)] [[("A", (1 : ℚ))]] 1 1 "user_confidences" (some [(0 : ℚ)])
      (fun _ => "A")).2 [(0 : ℚ)] rfl h0 rfl rfl rfl⟩

/-- C10: when validation passes but pick-matrix construction fails (a pick
references an unknown asset), the returned state has
`implied_equilibrium_returns` overwritten with the new run's value while
the other three output fields keep their previous values. -/
theorem allocate_partial_update {N : ℕ} (st : BLState N) (cov) (w)
    (V : List ℚ) (L : List (List (String × ℚ))) (δ τ : ℚ) (m : String)
    (conf : Option (List ℚ)) (names : Fin N → String)
    (h1 : errorChecks V.length L.length m conf = none)
    (h2 : create_pick_matrix V.length L names = none) :
    ((allocate st cov w V L δ τ m conf names).2 = some BLError.keyError) ∧
    ((allocate st cov w V L δ τ m conf names).1.implied_equilibrium_returns =
      some (fun i => calculate_implied_equilibrium_returns δ cov w i 0)) ∧
    ((allocate st cov w V L δ τ m conf names).1.weights = st.weights) ∧
    ((allocate st cov w V L δ τ m conf names).1.posterior_expected_returns =
      st.posterior_expected_returns) ∧
    ((allocate st cov w V L δ τ m conf names).1.posterior_covariance =
      st.posterior_covariance) := by
  rw [allocate_checks_pass st cov w V L δ τ m conf names h1,
    allocateBody_pick_fail st cov w V L δ τ m conf names h2]
  exact ⟨rfl, rfl, rfl, rfl, rfl⟩

/-- Concrete instance of `allocate_partial_update`: a one-asset universe
`["A"]` and a pick referencing the unknown asset `"B"`, starting from an
instance whose fields hold a previous run's values. -/
theorem allocate_partial_update_witness :
    (errorChecks [(5 : ℚ)/100].length [[("B", (1 : ℚ))]].length "prior_variance"
      none = none) ∧
    (create_pick_matrix [(5 : ℚ)/100].length [[("B", (1 : ℚ))]]
      (fun _ : Fin 1 => "A") = none) ∧
    (((allocate ⟨some (fun _ => 7), some (fun _ => 7), some (fun _ => 7),
        some (constMat 1 1 7)⟩ (constMat 1 1 1) (constMat 1 1 1) [(5 : ℚ)/100]
        [[("B", (1 : ℚ))]] (5/2) (5/100) "prior_variance" none
        (fun _ => "A")).2 = some BLError.keyError) ∧
    ((allocate ⟨some (fun _ => 7), some (fun _ => 7), some (fun _ => 7),
        some (constMat 1 1 7)⟩ (constMat 1 1 1) (constMat 1 1 1) [(5 : ℚ)/100]
        [[("B", (1 : ℚ))]] (5/2) (5/100) "prior_variance" none
        (fun _ => "A")).1.implied_equilibrium_returns =
      some (fun i => calculate_implied_equilibrium_returns (5/2) (constMat 1 1 1)
        (constMat 1 1 1) i 0)) ∧
    ((allocate ⟨some (fun _ => 7), some (fun _ => 7), some (fun _ => 7),
        some (constMat 1 1 7)⟩ (constMat 1 1 1) (constMat 1 1 1) [(5 : ℚ)/100]
        [[("B", (1 : ℚ))]] (5/2) (5/100) "prior_variance" none
        (fun _ => "A")).1.weights = some (fun _ => (7 : ℚ))) ∧
    ((allocate ⟨some (fun _ => 7), some (fun _ => 7), some (fun _ => 7),
        some (constMat 1 1 7)⟩ (constMat 1 1 1) (constMat 1 1 1) [(5 : ℚ)/100]
        [[("B", (1 : ℚ))]] (5/2) (5/100) "prior_variance" none
        (fun _ => "A")).1.posterior_expected_returns = some (fun _ => (7 : ℚ))) ∧
    ((allocate ⟨some (fun _ => 7), some (fun _ => 7), some (fun _ => 7),
        some (constMat 1 1 7)⟩ (constMat 1 1 1) (constMat 1 1 1) [(5 : ℚ)/100]
        [[("B", (1 : ℚ))]] (5/2) (5/100) "prior_variance" none
        (fun _ => "A")).1.posterior_covariance = some (constMat 1 1 7))) := by
  have h1 : errorChecks [(5 : ℚ)/100].length [[("B", (1 : ℚ))]].length
      "prior_variance" none = none := by
    simp [errorChecks]
  have h2 : create_pick_matrix [(5 : ℚ)/100].length [[("B", (1 : ℚ))]]
      (fun _ : Fin 1 => "A") = none := by
    rw [create_pick_matrix, if_neg]
    decide
  exact ⟨h1, h2, allocate_partial_update _ _ _ _ _ _ _ _ _ _ h1 h2⟩

/-- C4 (amended): validation accepts the omega-method selector exactly when
it is the underscored `prior_variance` or `user_confidences`; any other
string — including the spec's hyphenated spellings — raises the
unknown-method error before any numeric computation, with the state
untouched. -/
theorem omega_method_underscore_strings {N : ℕ} (st : BLState N) (cov) (w)
    (V : List ℚ) (L : List (List (String × ℚ))) (δ τ : ℚ) (m : String)
    (conf : Option (List ℚ)) (names : Fin N → String)
    (hc : V.length = L.length) :
    (errorChecks V.length L.length m conf = some BLError.unknownOmegaMethod ↔
      (m ≠ "prior_variance" ∧ m ≠ "user_confidences")) ∧
    ((m ≠ "prior_variance" ∧ m ≠ "user_confidences") →
      allocate st cov w V L δ τ m conf names =
        (st, some BLError.unknownOmegaMethod)) := by
  have hv1 : ¬V.length ≠ L.length := by omega
  have hmain : errorChecks V.length L.length m conf =
      some BLError.unknownOmegaMethod ↔
      (m ≠ "prior_variance" ∧ m ≠ "user_confidences") := by
    constructor
    · intro h
      by_contra h2
      by_cases h3 : m = "user_confidences"
      · rcases conf with _ | cs
        · simp [errorChecks, hv1, h2, h3] at h
        · simp only [errorChecks, if_neg hv1, if_neg h2, if_pos h3] at h
          split_ifs at h <;> cases h
      · have hpv : m = "prior_variance" := by
          rcases not_and_or.mp h2 with h4 | h4
          · exact not_not.mp h4
          · exact absurd (not_not.mp h4) h3
        simp [errorChecks, hv1, hpv] at h
    · intro h2
      simp [errorChecks, hv1, h2.1, h2.2]
  refine ⟨hmain, fun h2 => ?_⟩
  exact allocate_checks_fail st cov w V L δ τ m conf names _ (hmain.mpr h2)

/-- Concrete instance of `omega_method_underscore_strings` at the
unrecognized selector `"idzorek"`. -/
theorem omega_method_underscore_strings_witness :
    ([(1 : ℚ)].length = [[("A", (1 : ℚ))]].length) ∧
    ((errorChecks [(1 : ℚ)].length [[("A", (1 : ℚ))]].length "idzorek" none =
        some BLError.unknownOmegaMethod ↔
      ("idzorek" ≠ "prior_variance" ∧ "idzorek" ≠ "user_confidences")) ∧
    (("idzorek" ≠ "prior_variance" ∧ "idzorek" ≠ "user_confidences") →
      allocate (initState 1) (constMat 1 1 1) (constMat 1 1 1) [(1 : ℚ)]
          [[("A", (1 : ℚ))]] (5/2) (5/100) "idzorek" none (fun _ => "A") =
        (initState 1, some BLError.unknownOmegaMethod))) := by
  have hc : [(1 : ℚ)].length = [[("A", (1 : ℚ))]].length := rfl
  exact ⟨hc,
    omega_method_underscore_strings (initState 1) (constMat 1 1 1)
      (constMat 1 1 1) [(1 : ℚ)] [[("A", (1 : ℚ))]] (5/2) (5/100) "idzorek"
      none (fun _ => "A") hc⟩

/-- With no views the correction terms are empty sums: the posterior
returns reduce to the implied returns and the posterior covariance to
Σ + τΣ. -/
theorem posterior_formulas_no_views {N : ℕ} (cov : Matrix (Fin N) (Fin N) ℚ)
    (τ : ℚ) (implied : Matrix (Fin N) (Fin 1) ℚ) (P : Matrix (Fin 0) (Fin N) ℚ)
    (Ω : Matrix (Fin 0) (Fin 0) ℚ) (Q : Matrix (Fin 0) (Fin 1) ℚ) :
    calculate_posterior_expected_returns implied cov τ P Ω Q =
      reshapeRow implied ∧
    calculate_posterior_covariance cov τ P Ω = cov + τ • cov := by
  constructor
  · rw [calculate_posterior_expected_returns,
      mul_finZero ((τ • cov) * Pᵀ)
        (npInv (P * (τ • cov) * Pᵀ + Ω) * (Q - P * implied)),
      add_zero]
  · rw [calculate_posterior_covariance,
      mul_finZero ((τ • cov) * Pᵀ * npInv (P * (τ • cov) * Pᵀ + Ω)) P,
      Matrix.zero_mul, sub_zero]

/-- C6: with an empty view list and an empty pick list, `allocate` stores
posterior expected returns equal to the implied equilibrium returns
δ·Σ·w_mkt and a posterior covariance equal to Σ + τΣ. -/
theorem allocate_zero_views {N : ℕ} (st : BLState N)
    (cov : Matrix (Fin N) (Fin N) ℚ) (w : Matrix (Fin N) (Fin 1) ℚ)
    (δ τ : ℚ) (names : Fin N → String) :
    ((allocate st cov w [] [] δ τ "prior_variance" none
        names).1.posterior_expected_returns =
      some (fun i => (δ • (cov * w)) i 0)) ∧
    ((allocate st cov w [] [] δ τ "prior_variance" none
        names).1.posterior_covariance =
      some (cov + τ • cov)) := by
  have hec : errorChecks ([] : List ℚ).length
      ([] : List (List (String × ℚ))).length "prior_variance" none = none := by
    simp [errorChecks]
  rw [allocate_checks_pass st cov w [] [] δ τ "prior_variance" none names hec]
  have hP : create_pick_matrix (N := N) ([] : List ℚ).length [] names =
      some (Matrix.of fun _ _ => 0) := by
    rw [create_pick_matrix, if_pos]
    · rfl
    · intro d hd
      cases hd
  have hΩ : calculate_omega cov τ
      (Matrix.of fun _ _ => 0 : Matrix (Fin ([] : List ℚ).length) (Fin N) ℚ)
      none "prior_variance" =
      some (Matrix.diagonal fun k =>
        ((Matrix.of fun _ _ => 0 : Matrix (Fin ([] : List ℚ).length) (Fin N) ℚ) *
          ((τ • cov) *
            (Matrix.of fun _ _ => 0 :
              Matrix (Fin ([] : List ℚ).length) (Fin N) ℚ)ᵀ)) k k) := by
    simp [calculate_omega]
  have hdet : ¬((Matrix.of fun _ _ => 0 :
        Matrix (Fin ([] : List ℚ).length) (Fin N) ℚ) * (τ • cov) *
        (Matrix.of fun _ _ => 0 :
          Matrix (Fin ([] : List ℚ).length) (Fin N) ℚ)ᵀ +
        Matrix.diagonal fun k =>
          ((Matrix.of fun _ _ => 0 :
            Matrix (Fin ([] : List ℚ).length) (Fin N) ℚ) *
            ((τ • cov) *
              (Matrix.of fun _ _ => 0 :
                Matrix (Fin ([] : List ℚ).length) (Fin N) ℚ)ᵀ)) k k).det = 0 := by
    have h1 : ((Matrix.of fun _ _ => 0 :
        Matrix (Fin ([] : List ℚ).length) (Fin N) ℚ) * (τ • cov) *
        (Matrix.of fun _ _ => 0 :
          Matrix (Fin ([] : List ℚ).length) (Fin N) ℚ)ᵀ +
        Matrix.diagonal fun k =>
          ((Matrix.of fun _ _ => 0 :
            Matrix (Fin ([] : List ℚ).length) (Fin N) ℚ) *
            ((τ • cov) *
              (Matrix.of fun _ _ => 0 :
                Matrix (Fin ([] : List ℚ).length) (Fin N) ℚ)ᵀ)) k k).det = 1 :=
      Matrix.det_fin_zero
    rw [h1]
    norm_num
  obtain ⟨hpr, hpc⟩ := allocateBody_posteriors st cov w [] [] δ τ
    "prior_variance" none names _ _ hP hΩ hdet
  haveI : IsEmpty (Fin ([] : List ℚ).length) :=
    ⟨fun i => Nat.not_lt_zero i.val i.isLt⟩
  constructor
  · rw [hpr]
    congr 1
    funext i
    simp [calculate_posterior_expected_returns, reshapeRow,
      calculate_implied_equilibrium_returns, Matrix.mul_apply, Matrix.add_apply,
      Matrix.transpose_apply, Matrix.smul_apply, Finset.univ_eq_empty,
      smul_eq_mul]
  · rw [hpc]
    congr 1
    ext i j
    simp [calculate_posterior_covariance, Matrix.mul_apply, Matrix.sub_apply,
      Matrix.add_apply, Matrix.smul_apply, Finset.univ_eq_empty, smul_eq_mul]

end BLModel
